import Mathlib

/-!
Verification of the credential-resolution core of `git-credential-azure-cli`
(`main.go`), as a shallow embedding in Lean 4.

Strings are modelled by Lean `String` (a wrapper around `List Char`); the Go
standard-library helpers used by the source (`strings.HasSuffix`,
`strings.ToLower`, `strings.TrimSpace`, `strings.Index`) are embedded as
explicit list-level definitions.  The Azure identity broker is modelled as an
oracle `String → Option (String × Int)` mapping a requested scope to an
optional (token, unix-expiry) pair, `none` standing for an acquisition error.
The `get` subcommand (`getCredential`) is embedded as a pure function that
also returns the trace of broker interactions, so that temporal claims
(gating before broker contact, number of acquisition attempts) are statable.
-/

namespace CredHelper

/-- Embedding of Go `strings.HasSuffix s p` (byte-level suffix test). -/
def hasSuffix (s p : String) : Bool :=
  p.data.isSuffixOf s.data

/-- Embedding of Go `strings.ToLower` (character-wise lower-casing). -/
def toLower (s : String) : String :=
  String.mk (s.data.map Char.toLower)

/-- Embedding of Go `strings.TrimSpace` (drop leading and trailing whitespace). -/
def trimSpace (s : String) : String :=
  String.mk (((s.data.dropWhile Char.isWhitespace).reverse.dropWhile
    Char.isWhitespace).reverse)

/-- `main.go:51` — `defaultAllowedDomains`. -/
def defaultAllowedDomains : List String := ["visualstudio.com", "dev.azure.com"]

/-- `main.go:79-96` — the allowed-domain part of `loadConfig`: the configured
`azureclicredentialhelper.alloweddomain` values are trimmed, empty entries are
dropped, and the default set is used when the configured list is empty or all
entries trim to empty. -/
def computeAllowedDomains (domains : List String) : List String :=
  if domains = [] then defaultAllowedDomains
  else
    let loaded := ((domains.map trimSpace).filter (fun d => d != ""))
    if loaded = [] then defaultAllowedDomains else loaded

/-- `main.go:137-146` — `isAllowedHost`. -/
def isAllowedHost (host : String) (allowedDomains : List String) : Bool :=
  let h := toLower host
  allowedDomains.any fun domain =>
    let d := toLower domain
    h == d || hasSuffix h ("." ++ d)

/-- `fmt.Sprintf("%s://%s", protocol, host)` as used in `main.go:149,162,288`. -/
def urlOf (protocol host : String) : String :=
  protocol ++ "://" ++ host

/-- `main.go:148-159` — `getResourceForHost`; the Go map `resourceOverrides`
is modelled as an association list. -/
def getResourceForHost (resourceOverrides : List (String × String))
    (protocol host : String) : String :=
  let url := urlOf protocol host
  match resourceOverrides.lookup url with
  | some resource => resource
  | none =>
    match resourceOverrides.lookup host with
    | some resource => resource
    | none => url ++ "/"

/-- `main.go:161-172` — `getTenantForHost`. -/
def getTenantForHost (tenantOverrides : List (String × String))
    (protocol host : String) : String :=
  let url := urlOf protocol host
  match tenantOverrides.lookup url with
  | some tenant => tenant
  | none =>
    match tenantOverrides.lookup host with
    | some tenant => tenant
    | none => ""

/-- `strings.Index(line, "=")` based split of a `key=value` line
(`main.go:185-186`): `none` when the line has no `=`. -/
def splitKV (line : String) : Option (String × String) :=
  if line.data.contains '=' then
    some (String.mk (line.data.takeWhile (fun c => c != '=')),
          String.mk ((line.data.dropWhile (fun c => c != '=')).drop 1))
  else none

/-- The empty attribute map (`make(map[string]string)` in `main.go:175`). -/
def emptyData : String → Option String := fun _ => none

/-- `data[key] = value` — Go map write, last write wins. -/
def insertData (data : String → Option String) (k v : String) :
    String → Option String :=
  fun q => if q = k then some v else data q

/-- The scanner loop of `parseInput` (`main.go:179-195`) over the input lines,
carrying the attribute map and the `wwwauth` slice built so far. -/
def parseLinesAux (data : String → Option String) (wwwauth : List String) :
    List String → (String → Option String) × List String
  | [] => (data, wwwauth)
  | l :: rest =>
    let line := trimSpace l
    if line = "" then (data, wwwauth)
    else
      match splitKV line with
      | some kv =>
        if kv.1 = "wwwauth[]" then parseLinesAux data (wwwauth ++ [kv.2]) rest
        else parseLinesAux (insertData data kv.1 kv.2) wwwauth rest
      | none => parseLinesAux data wwwauth rest

/-- `main.go:174-198` — `parseInput`, with standard input modelled as the list
of its lines. -/
def parseInput (lines : List String) : (String → Option String) × List String :=
  parseLinesAux emptyData [] lines

/-- The literal characters of the regular expression fragment `realm="`. -/
def realmPat : List Char := "realm=\"".data

/-- A match of the regular expression `realm="([^"]+)"` anchored at the head
of `s` (`main.go:201`): the literal prefix, then one or more non-quote
characters (greedy, which for this pattern is also the unique possibility),
then a closing quote; returns the capture group. -/
def matchRealmAt (s : List Char) : Option String :=
  if realmPat.isPrefixOf s then
    let rest := s.drop realmPat.length
    let val := rest.takeWhile (fun c => c != '"')
    if val = [] then none
    else if rest.dropWhile (fun c => c != '"') = [] then none
    else some (String.mk val)
  else none

/-- Leftmost match of `realm="([^"]+)"` in a character list, scanning match
start positions left to right (the semantics of `FindStringSubmatch`,
`main.go:203`). -/
def findRealm : List Char → Option String
  | [] => none
  | c :: rest =>
    match matchRealmAt (c :: rest) with
    | some v => some v
    | none => findRealm rest

/-- `main.go:200-209` — `extractRealm`: the capture of the first entry that
matches, in input order; `""` when no entry matches. -/
def extractRealm : List String → String
  | [] => ""
  | entry :: rest =>
    match findRealm entry.data with
    | some v => v
    | none => extractRealm rest

/-- The scope normalization inside `getAccessToken` (`main.go:213-217`):
append `/` unless already present, then append `.default`. -/
def toScope (resource : String) : String :=
  let scope := if hasSuffix resource "/" then resource else resource ++ "/"
  scope ++ ".default"

/-- `main.go:211-231` — `getAccessToken`, with the broker credential modelled
as an oracle from the requested scope to an optional (token, expiry) pair
(`none` = the broker returned an error). -/
def getAccessToken (cred : String → Option (String × Int)) (resource : String) :
    Option (String × Int) :=
  cred (toScope resource)

/-- `main.go:233-240` — `outputCredential`, as the list of stdout lines. -/
def outputCredential (accessToken : String) (expiryUTC : Int) : List String :=
  ["authtype=bearer", "username=null", "password=" ++ accessToken] ++
    (if expiryUTC > 0 then ["password_expiry_utc=" ++ toString expiryUTC] else [])

/-- `main.go:68-72` — `debugf`: the stderr lines produced by one call, which
are empty unless the verbosity level is high enough. -/
def debugf (verbosity level : Nat) (msg : String) : List String :=
  if verbosity ≥ level then ["[DEBUG] " ++ msg] else []

/-- An observable interaction with the Azure identity machinery:
construction of the broker credential handle (`azidentity.NewAzureCLICredential`,
with the optional tenant override it was given), or one token-acquisition
attempt (`getAccessToken`, with the resource it was asked for). -/
inductive Event
  | mkBroker (tenant : Option String)
  | tokenRequest (resource : String)
deriving DecidableEq, Repr

/-- The externally visible outcome of a `get` run: a silent return (zero bytes
on stdout, exit status 0), a fatal `os.Exit(1)` (zero bytes on stdout,
non-zero exit status), or a credential printed to stdout as a list of lines
followed by exit status 0. -/
inductive Outcome
  | silent
  | fatal
  | output (lines : List String)
deriving DecidableEq, Repr

/-- The configuration state after `loadConfig` (`main.go:58-63`): the allowed
domains, and the resource / tenant override tables. -/
structure Config where
  allowedDomains : List String
  resourceOverrides : List (String × String)
  tenantOverrides : List (String × String)

/-- `main.go:267-274` — the tenant-override argument handed to
`azidentity.NewAzureCLICredential`: `none` models a `nil` options struct. -/
def credOptions (cfg : Config) (protocol host : String) : Option String :=
  let tenant := getTenantForHost cfg.tenantOverrides protocol host
  if tenant = "" then none else some tenant

/-- `main.go:281-298` — the acquisition phase of `getCredential`: the primary
attempt with the resolved resource, then, exactly when the primary attempt
failed and no resource override exists under the full-URL or bare-host key,
the realm-fallback attempt.  Returns the final (token, expiry) result and the
list of acquisition attempts performed, in order. -/
def attemptTokens (cfg : Config) (cred : String → Option (String × Int))
    (protocol host : String) (wwwauth : List String) :
    Option (String × Int) × List Event :=
  let resource := getResourceForHost cfg.resourceOverrides protocol host
  match getAccessToken cred resource with
  | some r => (some r, [.tokenRequest resource])
  | none =>
    let url := urlOf protocol host
    if (cfg.resourceOverrides.lookup url).isSome ||
        (cfg.resourceOverrides.lookup host).isSome then
      (none, [.tokenRequest resource])
    else
      let realm := extractRealm wwwauth
      if realm = "" then (none, [.tokenRequest resource])
      else (getAccessToken cred realm,
            [.tokenRequest resource, .tokenRequest realm])

/-- `main.go:300-303` — the final emission step of `getCredential`: print the
credential exactly when the last attempt succeeded with a non-empty token. -/
def finishOutcome (result : Option (String × Int)) : Outcome :=
  match result with
  | some r => if r.1 = "" then .silent else .output (outputCredential r.1 r.2)
  | none => .silent

/-- `main.go:242-304` — `getCredential` (the `get` subcommand), instrumented
with the trace of broker interactions.  `newCred` models
`azidentity.NewAzureCLICredential`: from the optional tenant override to
either a broker oracle or a construction error (`none`). -/
def getCredentialTrace (cfg : Config)
    (newCred : Option String → Option (String → Option (String × Int)))
    (lines : List String) : Outcome × List Event :=
  let parsed := parseInput lines
  let data := parsed.1
  let wwwauth := parsed.2
  let protocol := (data "protocol").getD ""
  let host := (data "host").getD ""
  if protocol ≠ "https" then (.silent, [])
  else if !isAllowedHost host cfg.allowedDomains then (.silent, [])
  else
    let copts := credOptions cfg protocol host
    match newCred copts with
    | none => (.fatal, [.mkBroker copts])
    | some cred =>
      let res := attemptTokens cfg cred protocol host wwwauth
      (finishOutcome res.1, .mkBroker copts :: res.2)

/-- The outcome of a `get` run (the trace forgotten). -/
def getCredentialRun (cfg : Config)
    (newCred : Option String → Option (String → Option (String × Int)))
    (lines : List String) : Outcome :=
  (getCredentialTrace cfg newCred lines).1

/-- The resources of the token-acquisition attempts in a trace, in order. -/
def tokenRequests (events : List Event) : List String :=
  events.filterMap fun e =>
    match e with
    | .tokenRequest r => some r
    | _ => none

/-- C2: for every host and domain set, `isAllowedHost` returns true exactly
when some listed domain, after lower-casing both sides, equals the host or is
a dot-separated suffix of it; in particular `msazure.visualstudio.com` is
allowed under `visualstudio.com` while `notvisualstudio.com` is not. -/
theorem c2_isAllowedHost_characterization :
    (∀ (h : String) (D : List String),
      isAllowedHost h D = true ↔
        ∃ d ∈ D, toLower h = toLower d ∨
          hasSuffix (toLower h) ("." ++ toLower d) = true) ∧
    isAllowedHost "msazure.visualstudio.com" ["visualstudio.com"] = true ∧
    isAllowedHost "notvisualstudio.com" ["visualstudio.com"] = false := by
  refine ⟨fun h D => ?_, by decide, by decide⟩
  simp [isAllowedHost, List.any_eq_true, Bool.or_eq_true, beq_iff_eq]

/-- C3: resource resolution consults the full-URL key first, then the
bare-host key, and otherwise synthesizes `protocol://host/`; with both
overrides present the full-URL entry wins, and on an empty table
`resolveResource("https","dev.azure.com",\x7b\x7d)` is `https://dev.azure.com/`. -/
theorem c3_getResourceForHost_precedence :
    (∀ (ov : List (String × String)) (protocol host r : String),
      ov.lookup (urlOf protocol host) = some r →
        getResourceForHost ov protocol host = r) ∧
    (∀ (ov : List (String × String)) (protocol host r : String),
      ov.lookup (urlOf protocol host) = none → ov.lookup host = some r →
        getResourceForHost ov protocol host = r) ∧
    (∀ (ov : List (String × String)) (protocol host : String),
      ov.lookup (urlOf protocol host) = none → ov.lookup host = none →
        getResourceForHost ov protocol host = urlOf protocol host ++ "/") ∧
    (∀ (ov : List (String × String)) (protocol host r₁ r₂ : String),
      ov.lookup (urlOf protocol host) = some r₁ → ov.lookup host = some r₂ →
        getResourceForHost ov protocol host = r₁) ∧
    getResourceForHost [] "https" "dev.azure.com" = "https://dev.azure.com/" := by
  refine ⟨?_, ?_, ?_, ?_, by decide⟩
  · intro ov protocol host r h₁
    simp [getResourceForHost, h₁]
  · intro ov protocol host r h₁ h₂
    simp [getResourceForHost, h₁, h₂]
  · intro ov protocol host h₁ h₂
    simp [getResourceForHost, h₁, h₂]
  · intro ov protocol host r₁ r₂ h₁ h₂
    simp [getResourceForHost, h₁]

/-- Witness for C3 at a concrete table with both a full-URL and a bare-host
entry, and at the empty table. -/
theorem c3_witness :
    getResourceForHost [("https://h", "A"), ("h", "B")] "https" "h" = "A" ∧
    getResourceForHost [] "https" "dev.azure.com" = "https://dev.azure.com/" :=
  ⟨c3_getResourceForHost_precedence.2.2.2.1 [("https://h", "A"), ("h", "B")]
      "https" "h" "A" "B" (by decide) (by decide),
    c3_getResourceForHost_precedence.2.2.2.2⟩

/-- C10: after configuration loading the allowed-domain list is never empty:
entries are trimmed, empties dropped, and the default set is used when the
configuration supplies no entries or only entries that trim to empty. -/
theorem c10_allowedDomains_nonempty :
    ∀ domains : List String,
      computeAllowedDomains domains ≠ [] ∧
      (domains = [] → computeAllowedDomains domains = defaultAllowedDomains) ∧
      ((∀ d ∈ domains, trimSpace d = "") →
        computeAllowedDomains domains = defaultAllowedDomains) ∧
      (computeAllowedDomains domains = defaultAllowedDomains ∨
        computeAllowedDomains domains =
          (domains.map trimSpace).filter (fun d => d != "")) := by
  intro domains
  by_cases hd : domains = []
  · subst hd
    exact ⟨by decide, fun _ => rfl, fun _ => rfl, Or.inl rfl⟩
  · by_cases hl : ((domains.map trimSpace).filter (fun d => d != "")) = []
    · refine ⟨?_, fun h => absurd h hd, fun _ => ?_, Or.inl ?_⟩ <;>
        simp [computeAllowedDomains, hd, hl]
      decide
    · refine ⟨?_, fun h => absurd h hd, fun hall => ?_, Or.inr ?_⟩ <;>
        simp only [computeAllowedDomains, hd, hl, if_false, if_neg hd, if_neg hl]
      · exact hl
      · exfalso
        apply hl
        rw [List.filter_eq_nil_iff]
        intro a ha
        obtain ⟨d, hdmem, rfl⟩ := List.mem_map.mp ha
        simp [hall d hdmem]

/-- Witness for C10: the default set is used when every configured entry
trims to the empty string. -/
theorem c10_witness :
    computeAllowedDomains ["  ", ""] = defaultAllowedDomains :=
  (c10_allowedDomains_nonempty ["  ", ""]).2.2.1 (by decide)

/-- The lines the scanner loop of `parseInput` actually processes: each line
trimmed, up to (excluding) the first one that trims to empty. -/
def processedLines (lines : List String) : List String :=
  (lines.map trimSpace).takeWhile (fun l => l != "")

/-- The values carried by processed lines whose key is `k`, in input order. -/
def valuesFor (k : String) (lines : List String) : List String :=
  (processedLines lines).filterMap fun l =>
    match splitKV l with
    | some kv => if kv.1 = k then some kv.2 else none
    | none => none

lemma getLast?_cons_eq_some {α : Type} (a : α) (l : List α) :
    (a :: l).getLast? = some (l.getLast?.getD a) := by
  cases l <;> simp [List.getLast?_cons]

lemma valuesFor_cons (k l : String) (rest : List String) :
    valuesFor k (l :: rest) =
      if trimSpace l = "" then []
      else (match splitKV (trimSpace l) with
            | some kv => if kv.1 = k then [kv.2] else []
            | none => []) ++ valuesFor k rest := by
  have hcons : processedLines (l :: rest) =
      if trimSpace l = "" then [] else trimSpace l :: processedLines rest := by
    by_cases h : trimSpace l = "" <;>
      simp [processedLines, List.takeWhile_cons, h]
  by_cases h : trimSpace l = ""
  · simp [valuesFor, hcons, h]
  · simp only [valuesFor, hcons, if_neg h, List.filterMap_cons]
    cases hkv : splitKV (trimSpace l) with
    | none => simp [valuesFor]
    | some kv =>
      by_cases hk : kv.1 = k <;> simp [hk, valuesFor]

lemma parseLinesAux_snd (d : String → Option String) (w : List String)
    (lines : List String) :
    (parseLinesAux d w lines).2 = w ++ valuesFor "wwwauth[]" lines := by
  induction lines generalizing d w with
  | nil => simp [parseLinesAux, valuesFor, processedLines]
  | cons l rest ih =>
    rw [valuesFor_cons]
    by_cases h : trimSpace l = ""
    · simp [parseLinesAux, h]
    · simp only [parseLinesAux, h, if_neg h]
      cases hkv : splitKV (trimSpace l) with
      | none => simp [ih]
      | some kv =>
        by_cases hk : kv.1 = "wwwauth[]"
        · simp [hk, ih, List.append_assoc]
        · simp [hk, ih]

lemma parseLinesAux_fst (d : String → Option String) (w : List String)
    (lines : List String) (k : String) (hk : k ≠ "wwwauth[]") :
    (parseLinesAux d w lines).1 k =
      match (valuesFor k lines).getLast? with
      | some v => some v
      | none => d k := by
  induction lines generalizing d w with
  | nil => simp [parseLinesAux, valuesFor, processedLines]
  | cons l rest ih =>
    rw [valuesFor_cons]
    by_cases h : trimSpace l = ""
    · simp [parseLinesAux, h]
    · rw [if_neg h]
      simp only [parseLinesAux, h, if_false]
      cases hkv : splitKV (trimSpace l) with
      | none => simpa using ih d w
      | some kv =>
        dsimp only
        by_cases hkk : kv.1 = "wwwauth[]"
        · have hne : ¬kv.1 = k := fun hh => hk (hh ▸ hkk)
          rw [if_pos hkk, ih d (w ++ [kv.2]), if_neg hne, List.nil_append]
        · by_cases hkeq : kv.1 = k
          · subst hkeq
            rw [if_neg hkk, ih (insertData d kv.1 kv.2) w, if_pos rfl,
              List.singleton_append]
            cases hv : (valuesFor kv.1 rest).getLast? <;>
              simp [insertData, getLast?_cons_eq_some, hv]
          · rw [if_neg hkk, ih (insertData d kv.1 kv.2) w, if_neg hkeq,
              List.nil_append]
            cases (valuesFor k rest).getLast? <;>
              simp [insertData, Ne.symm hkeq]

/-- C8: the request parser consumes trimmed `key=value` lines up to the first
blank line; `wwwauth[]` lines accumulate into the challenge-header list in
input order, any other well-formed key keeps its last written value, and
lines without `=` are skipped. -/
theorem c8_parseInput_characterization (lines : List String) :
    (parseInput lines).2 = valuesFor "wwwauth[]" lines ∧
    ∀ k, k ≠ "wwwauth[]" →
      (parseInput lines).1 k = (valuesFor k lines).getLast? := by
  constructor
  · simpa using parseLinesAux_snd emptyData [] lines
  · intro k hk
    rw [parseInput, parseLinesAux_fst emptyData [] lines k hk]
    cases (valuesFor k lines).getLast? <;> rfl

/-- Witness for C8 on a concrete request containing repeated keys, repeated
challenge headers, a malformed line, and a terminating blank line. -/
theorem c8_witness :
    (parseInput
        ["a=1", "wwwauth[]=x", " a=2 ", "wwwauth[]=y", "bad", "", "c=3"]).2 =
      valuesFor "wwwauth[]"
        ["a=1", "wwwauth[]=x", " a=2 ", "wwwauth[]=y", "bad", "", "c=3"] ∧
    (parseInput
        ["a=1", "wwwauth[]=x", " a=2 ", "wwwauth[]=y", "bad", "", "c=3"]).1 "a" =
      (valuesFor "a"
        ["a=1", "wwwauth[]=x", " a=2 ", "wwwauth[]=y", "bad", "", "c=3"]).getLast? :=
  ⟨(c8_parseInput_characterization _).1,
    (c8_parseInput_characterization _).2 "a" (by decide)⟩

lemma matchRealmAt_ne_empty {s : List Char} {v : String}
    (h : matchRealmAt s = some v) : v ≠ "" := by
  unfold matchRealmAt at h
  split at h
  · dsimp only at h
    split at h
    · exact Option.noConfusion h
    · rename_i hval
      split at h
      · exact Option.noConfusion h
      · injection h with h'
        subst h'
        exact fun hc => hval (by simpa using congrArg String.data hc)
  · exact Option.noConfusion h

lemma findRealm_ne_empty {s : List Char} {v : String}
    (h : findRealm s = some v) : v ≠ "" := by
  induction s with
  | nil => simp [findRealm] at h
  | cons c rest ih =>
    rw [show findRealm (c :: rest) = match matchRealmAt (c :: rest) with
        | some v => some v
        | none => findRealm rest from rfl] at h
    cases hm : matchRealmAt (c :: rest) with
    | none => rw [hm] at h; exact ih h
    | some u =>
      rw [hm] at h
      injection h with h'
      exact h' ▸ matchRealmAt_ne_empty hm

lemma extractRealm_eq_empty_iff (ww : List String) :
    extractRealm ww = "" ↔ ∀ e ∈ ww, findRealm e.data = none := by
  induction ww with
  | nil => simp [extractRealm]
  | cons e rest ih =>
    cases hf : findRealm e.data with
    | none => simp [extractRealm, hf, ih]
    | some v =>
      simp only [extractRealm, hf, List.forall_mem_cons]
      constructor
      · intro hv
        exact absurd hv (findRealm_ne_empty hf)
      · intro hall
        exact Option.noConfusion hall.1

lemma extractRealm_first (pre : List String) (e : String) (post : List String)
    (hpre : ∀ x ∈ pre, findRealm x.data = none) {v : String}
    (hv : findRealm e.data = some v) :
    extractRealm (pre ++ e :: post) = v := by
  induction pre with
  | nil => simp [extractRealm, hv]
  | cons p ps ih =>
    have hp : findRealm p.data = none := hpre p (by simp)
    simp only [List.cons_append, extractRealm, hp]
    exact ih fun x hx => hpre x (by simp [hx])

/-- Unfolding of the `get` run once the protocol and domain gates have been
passed. -/
lemma getCredentialTrace_gated (cfg : Config)
    (newCred : Option String → Option (String → Option (String × Int)))
    (lines : List String) (host : String)
    (hp : ((parseInput lines).1 "protocol").getD "" = "https")
    (hh : ((parseInput lines).1 "host").getD "" = host)
    (ha : isAllowedHost host cfg.allowedDomains = true) :
    getCredentialTrace cfg newCred lines =
      match newCred (credOptions cfg "https" host) with
      | none => (.fatal, [.mkBroker (credOptions cfg "https" host)])
      | some cred =>
        (finishOutcome
            (attemptTokens cfg cred "https" host (parseInput lines).2).1,
          .mkBroker (credOptions cfg "https" host) ::
            (attemptTokens cfg cred "https" host (parseInput lines).2).2) := by
  simp only [getCredentialTrace, hp, hh, ha, ne_eq, not_true_eq_false,
    if_false, Bool.not_true, Bool.false_eq_true]

/-- C1: the realm-based second acquisition attempt happens exactly when the
primary attempt failed, no resource override exists under the full-URL or the
bare-host key, and some challenge header matches `realm="<value>"`; the second
attempt then uses the first match in header order, and without a match the
extracted realm is empty and only the primary attempt is made (in particular,
an explicit override suppresses the fallback even on failure). -/
theorem c1_realm_fallback (cfg : Config)
    (newCred : Option String → Option (String → Option (String × Int)))
    (lines : List String) (cred : String → Option (String × Int)) (host : String)
    (hp : ((parseInput lines).1 "protocol").getD "" = "https")
    (hh : ((parseInput lines).1 "host").getD "" = host)
    (ha : isAllowedHost host cfg.allowedDomains = true)
    (hb : newCred (credOptions cfg "https" host) = some cred) :
    (tokenRequests (getCredentialTrace cfg newCred lines).2 =
      if getAccessToken cred
            (getResourceForHost cfg.resourceOverrides "https" host) = none ∧
          cfg.resourceOverrides.lookup (urlOf "https" host) = none ∧
          cfg.resourceOverrides.lookup host = none ∧
          extractRealm (parseInput lines).2 ≠ ""
        then [getResourceForHost cfg.resourceOverrides "https" host,
              extractRealm (parseInput lines).2]
        else [getResourceForHost cfg.resourceOverrides "https" host]) ∧
    (extractRealm (parseInput lines).2 ≠ "" ↔
      ∃ e ∈ (parseInput lines).2, (findRealm e.data).isSome = true) ∧
    (∀ pre e post v, (parseInput lines).2 = pre ++ e :: post →
      (∀ x ∈ pre, findRealm x.data = none) → findRealm e.data = some v →
      extractRealm (parseInput lines).2 = v) := by
  refine ⟨?_, ?_, ?_⟩
  · rw [getCredentialTrace_gated cfg newCred lines host hp hh ha, hb]
    simp only [tokenRequests, attemptTokens]
    cases hprim : getAccessToken cred
        (getResourceForHost cfg.resourceOverrides "https" host) with
    | some r => simp [tokenRequests, hprim]
    | none =>
      cases hu : cfg.resourceOverrides.lookup (urlOf "https" host) with
      | some ru => simp [tokenRequests, hu]
      | none =>
        cases hho : cfg.resourceOverrides.lookup host with
        | some rh => simp [tokenRequests, hho]
        | none =>
          by_cases hr : extractRealm (parseInput lines).2 = ""
          · simp [tokenRequests, hr]
          · simp [tokenRequests, hr]
  · rw [ne_eq, extractRealm_eq_empty_iff]
    simp [Option.isSome_iff_ne_none]
  · intro pre e post v hsplit hpre hv
    rw [hsplit]
    exact extractRealm_first pre e post hpre hv

/-- Witness for C1: with no override and a failing broker, the run with a
matching challenge header performs exactly the primary and the realm attempt. -/
theorem c1_witness :
    tokenRequests (getCredentialTrace ⟨["dev.azure.com"], [], []⟩
        (fun _ => some fun _ => none)
        ["protocol=https", "host=dev.azure.com",
         "wwwauth[]=Bearer realm=\"https://r/\""]).2 =
      ["https://dev.azure.com/", "https://r/"] := by
  have h := (c1_realm_fallback ⟨["dev.azure.com"], [], []⟩
      (fun _ => some fun _ => none)
      ["protocol=https", "host=dev.azure.com",
       "wwwauth[]=Bearer realm=\"https://r/\""]
      (fun _ => none) "dev.azure.com" (by decide) (by decide) (by decide) rfl).1
  rw [h]
  decide

lemma hasSuffix_iff (s p : String) : hasSuffix s p = true ↔ p.data <:+ s.data := by
  simp [hasSuffix, List.isSuffixOf_iff_suffix]

/-- The scope normalization exactly as claim C4 words it: the resource
adjusted to end with exactly one trailing slash (trailing slashes collapsed
to a single one), followed by the fixed suffix. -/
def claimScope (resource : String) : String :=
  String.mk ((resource.data.reverse.dropWhile (fun c => c = '/')).reverse
    ++ ['/']) ++ ".default"

/-- Counterexample to C4: a resource that already ends with two slashes keeps
both of them, so the scope is not of the form (r adjusted to end with exactly
one slash) ++ ".default". -/
theorem c4_counterexample :
    toScope "https://contoso.com//" = "https://contoso.com//.default" ∧
    claimScope "https://contoso.com//" = "https://contoso.com/.default" ∧
    toScope "https://contoso.com//" ≠ claimScope "https://contoso.com//" := by
  refine ⟨by decide, by decide, by decide⟩

/-- C4 (amended): the token acquirer appends `/` to the resource only when it
does not already end with one, then appends `.default`; hence the requested
scope always ends with `/.default`, but pre-existing repeated trailing
slashes are preserved rather than collapsed to a single one. -/
theorem c4_scope_normalization (r : String) :
    toScope r = (if hasSuffix r "/" then r else r ++ "/") ++ ".default" ∧
    hasSuffix (toScope r) "/.default" = true := by
  constructor
  · rfl
  · rw [hasSuffix_iff]
    by_cases h : hasSuffix r "/" = true
    · have hsuf : ['/'] <:+ r.data := by
        have := (hasSuffix_iff r "/").mp h
        simpa using this
      obtain ⟨t, ht⟩ := hsuf
      have : toScope r = r ++ ".default" := by simp [toScope, h]
      rw [this, String.data_append, ← ht, List.append_assoc]
      exact ⟨t, rfl⟩
    · have : toScope r = (r ++ "/") ++ ".default" := by simp [toScope, h]
      rw [this, String.data_append, String.data_append, List.append_assoc]
      exact ⟨r.data, rfl⟩

/-- Witness for C4 (amended) at a concrete resource without a trailing
slash. -/
theorem c4_witness :
    toScope "https://dev.azure.com" =
      (if hasSuffix "https://dev.azure.com" "/" then "https://dev.azure.com"
        else "https://dev.azure.com" ++ "/") ++ ".default" ∧
    hasSuffix (toScope "https://dev.azure.com") "/.default" = true :=
  c4_scope_normalization "https://dev.azure.com"

/-- Every `get` run either stays silent, dies fatally, or prints the full
credential block for some non-empty token. -/
lemma run_cases (cfg : Config)
    (newCred : Option String → Option (String → Option (String × Int)))
    (lines : List String) :
    getCredentialRun cfg newCred lines = .silent ∨
    getCredentialRun cfg newCred lines = .fatal ∨
    ∃ T E, T ≠ "" ∧
      getCredentialRun cfg newCred lines = .output (outputCredential T E) := by
  unfold getCredentialRun getCredentialTrace
  dsimp only
  split
  · exact Or.inl rfl
  · split
    · exact Or.inl rfl
    · split
      · exact Or.inr (Or.inl rfl)
      · rename_i cred _
        dsimp only
        unfold finishOutcome
        split
        · rename_i r _
          split
          · exact Or.inl rfl
          · rename_i hT
            exact Or.inr (Or.inr ⟨r.1, r.2, hT, rfl⟩)
        · exact Or.inl rfl

/-- C5: whenever the run prints anything, it prints exactly the credential
block — `authtype=bearer`, `username=null`, `password=<token>` with a
non-empty token, plus `password_expiry_utc=<expiry>` exactly when the expiry
is positive; and an https request for an allowed host whose primary
acquisition returns a non-empty token produces exactly that block. -/
theorem c5_output_exact (cfg : Config)
    (newCred : Option String → Option (String → Option (String × Int)))
    (lines : List String) :
    (∀ ls, getCredentialRun cfg newCred lines = .output ls →
      ∃ (T : String) (E : Int), T ≠ "" ∧
        ls = ["authtype=bearer", "username=null", "password=" ++ T] ++
          (if E > 0 then ["password_expiry_utc=" ++ toString E] else [])) ∧
    (∀ (cred : String → Option (String × Int)) (host T : String) (E : Int),
      ((parseInput lines).1 "protocol").getD "" = "https" →
      ((parseInput lines).1 "host").getD "" = host →
      isAllowedHost host cfg.allowedDomains = true →
      newCred (credOptions cfg "https" host) = some cred →
      getAccessToken cred
          (getResourceForHost cfg.resourceOverrides "https" host) =
        some (T, E) →
      T ≠ "" →
      getCredentialRun cfg newCred lines = .output
        (["authtype=bearer", "username=null", "password=" ++ T] ++
          (if E > 0 then ["password_expiry_utc=" ++ toString E] else []))) := by
  constructor
  · intro ls hls
    rcases run_cases cfg newCred lines with h | h | ⟨T, E, hT, h⟩
    · rw [h] at hls; exact Outcome.noConfusion hls
    · rw [h] at hls; exact Outcome.noConfusion hls
    · rw [h] at hls
      injection hls with h'
      exact ⟨T, E, hT, h'.symm⟩
  · intro cred host T E hp hh ha hb hprim hT
    unfold getCredentialRun
    rw [getCredentialTrace_gated cfg newCred lines host hp hh ha, hb]
    dsimp only
    simp only [attemptTokens]
    rw [hprim]
    simp [finishOutcome, hT, outputCredential]

/-- Witness for C5: a concrete https request to an allowed host with a broker
returning token `tok` and expiry 5 prints exactly the four credential
lines. -/
theorem c5_witness :
    getCredentialRun ⟨defaultAllowedDomains, [], []⟩
        (fun _ => some fun s =>
          if s = "https://dev.azure.com/.default" then some ("tok", 5)
          else none)
        ["protocol=https", "host=dev.azure.com"] =
      .output
        (["authtype=bearer", "username=null", "password=" ++ "tok"] ++
          (if (5 : Int) > 0 then ["password_expiry_utc=" ++ toString (5 : Int)]
            else [])) :=
  (c5_output_exact ⟨defaultAllowedDomains, [], []⟩
      (fun _ => some fun s =>
        if s = "https://dev.azure.com/.default" then some ("tok", 5)
        else none)
      ["protocol=https", "host=dev.azure.com"]).2
    (fun s => if s = "https://dev.azure.com/.default" then some ("tok", 5)
      else none)
    "dev.azure.com" "tok" 5 (by decide) (by decide) (by decide) rfl (by decide)
    (by decide)

/-- A run rejected by the protocol or domain gate ends silently. -/
lemma run_silent_of_gate_fail (cfg : Config)
    (newCred : Option String → Option (String → Option (String × Int)))
    (lines : List String)
    (h : ((parseInput lines).1 "protocol").getD "" ≠ "https" ∨
      isAllowedHost (((parseInput lines).1 "host").getD "")
        cfg.allowedDomains = false) :
    getCredentialRun cfg newCred lines = .silent := by
  unfold getCredentialRun getCredentialTrace
  rcases h with h | h
  · simp [h]
  · by_cases hp : ((parseInput lines).1 "protocol").getD "" = "https"
    · simp [hp, h]
    · simp [hp]

/-- C6: a request whose protocol is not https, or whose host fails the
allowed-domain check, ends the run silently — zero bytes on stdout and a
successful exit (the `Outcome.silent` case). -/
theorem c6_scope_rejection_silent (cfg : Config)
    (newCred : Option String → Option (String → Option (String × Int)))
    (lines : List String)
    (h : ((parseInput lines).1 "protocol").getD "" ≠ "https" ∨
      isAllowedHost (((parseInput lines).1 "host").getD "")
        cfg.allowedDomains = false) :
    getCredentialRun cfg newCred lines = .silent :=
  run_silent_of_gate_fail cfg newCred lines h

/-- Witness for C6: an ftp request and an out-of-scope https host both end
silently. -/
theorem c6_witness :
    getCredentialRun ⟨defaultAllowedDomains, [], []⟩
      (fun _ => some fun _ => some ("tok", 5))
      ["protocol=ftp", "host=dev.azure.com"] = .silent ∧
    getCredentialRun ⟨defaultAllowedDomains, [], []⟩
      (fun _ => some fun _ => some ("tok", 5))
      ["protocol=https", "host=example.com"] = .silent :=
  ⟨c6_scope_rejection_silent _ _ _ (Or.inl (by decide)),
    c6_scope_rejection_silent _ _ _ (Or.inr (by decide))⟩

/-- C7: the trace of broker interactions (credential construction and token
requests) is empty exactly when the protocol or domain gate rejects the
request; equivalently, the broker is only ever touched after both checks
pass. -/
theorem c7_gate_before_broker (cfg : Config)
    (newCred : Option String → Option (String → Option (String × Int)))
    (lines : List String) :
    (getCredentialTrace cfg newCred lines).2 = [] ↔
      ¬(((parseInput lines).1 "protocol").getD "" = "https" ∧
        isAllowedHost (((parseInput lines).1 "host").getD "")
          cfg.allowedDomains = true) := by
  by_cases hp : ((parseInput lines).1 "protocol").getD "" = "https"
  · by_cases ha : isAllowedHost (((parseInput lines).1 "host").getD "")
        cfg.allowedDomains = true
    · rw [getCredentialTrace_gated cfg newCred lines _ hp rfl ha]
      cases newCred (credOptions cfg "https"
          (((parseInput lines).1 "host").getD "")) <;> simp [hp, ha]
    · unfold getCredentialTrace
      simp [hp, ha]
  · unfold getCredentialTrace
    simp [hp]

/-- Witness for C7: a non-https request produces an empty broker trace, and
an in-scope request produces a non-empty one. -/
theorem c7_witness :
    ((getCredentialTrace ⟨defaultAllowedDomains, [], []⟩
        (fun _ => some fun _ => none) ["protocol=ftp", "host=dev.azure.com"]).2
      = [] ↔
      ¬(((parseInput ["protocol=ftp", "host=dev.azure.com"]).1
            "protocol").getD "" = "https" ∧
        isAllowedHost
          (((parseInput ["protocol=ftp", "host=dev.azure.com"]).1
            "host").getD "") defaultAllowedDomains = true)) :=
  c7_gate_before_broker ⟨defaultAllowedDomains, [], []⟩
    (fun _ => some fun _ => none) ["protocol=ftp", "host=dev.azure.com"]

/-- Counterexample to C9 as stated: a run that reaches broker construction
and fails is fatal, yet at the default verbosity 0 the failure branch's
`debugf(1, ...)` call (`main.go:277`) writes no line to the error stream. -/
theorem c9_counterexample :
    getCredentialRun ⟨defaultAllowedDomains, [], []⟩ (fun _ => none)
      ["protocol=https", "host=dev.azure.com"] = .fatal ∧
    debugf 0 1 "Failed to create Azure CLI credential: az not found" = [] := by
  exact ⟨by decide, rfl⟩

/-- C9 (amended): the run is fatal (non-zero exit) exactly when both gates
pass and broker construction fails — the only fatal failure class — and the
message describing the failure reaches the error stream only when the debug
verbosity is at least 1 (the default verbosity 0 writes nothing). -/
theorem c9_fatal_iff (cfg : Config)
    (newCred : Option String → Option (String → Option (String × Int)))
    (lines : List String) :
    (getCredentialRun cfg newCred lines = .fatal ↔
      ((parseInput lines).1 "protocol").getD "" = "https" ∧
      isAllowedHost (((parseInput lines).1 "host").getD "")
        cfg.allowedDomains = true ∧
      newCred (credOptions cfg "https"
        (((parseInput lines).1 "host").getD "")) = none) ∧
    (∀ (verbosity : Nat) (msg : String),
      debugf verbosity 1 msg ≠ [] ↔ 1 ≤ verbosity) := by
  constructor
  · by_cases hp : ((parseInput lines).1 "protocol").getD "" = "https"
    · by_cases ha : isAllowedHost (((parseInput lines).1 "host").getD "")
          cfg.allowedDomains = true
      · rw [getCredentialRun,
          getCredentialTrace_gated cfg newCred lines _ hp rfl ha]
        cases hb : newCred (credOptions cfg "https"
            (((parseInput lines).1 "host").getD "")) with
        | none => simp [hp, ha, hb]
        | some cred =>
          dsimp only
          simp only [hp, ha, hb, true_and]
          constructor
          · intro hf
            exact absurd hf (by
              unfold finishOutcome
              split
              · split
                · exact fun hc => Outcome.noConfusion hc
                · exact fun hc => Outcome.noConfusion hc
              · exact fun hc => Outcome.noConfusion hc)
          · intro hc
            exact Option.noConfusion hc
      · constructor
        · intro hf
          rw [run_silent_of_gate_fail cfg newCred lines
            (Or.inr (by simpa using ha))] at hf
          exact Outcome.noConfusion hf
        · intro hc
          exact absurd hc.2.1 ha
    · constructor
      · intro hf
        rw [run_silent_of_gate_fail cfg newCred lines (Or.inl hp)] at hf
        exact Outcome.noConfusion hf
      · intro hc
        exact absurd hc.1 hp
  · intro verbosity msg
    constructor
    · intro hne
      by_contra hlt
      exact hne (by simp [debugf, Nat.lt_one_iff.mp (Nat.lt_of_not_le hlt)])
    · intro hv
      simp [debugf, hv]

/-- Witness for C9 (amended): with both gates passed and a failing broker
constructor, the run is fatal; with verbosity 1 the failure message is
emitted. -/
theorem c9_witness :
    getCredentialRun ⟨defaultAllowedDomains, [], []⟩ (fun _ => none)
        ["protocol=https", "host=dev.azure.com"] = .fatal ∧
    debugf 1 1 "Failed to create Azure CLI credential: az not found" ≠ [] :=
  ⟨((c9_fatal_iff ⟨defaultAllowedDomains, [], []⟩ (fun _ => none)
        ["protocol=https", "host=dev.azure.com"]).1).mpr
      ⟨by decide, by decide, rfl⟩,
    ((c9_fatal_iff ⟨defaultAllowedDomains, [], []⟩ (fun _ => none)
        ["protocol=https", "host=dev.azure.com"]).2 1
      "Failed to create Azure CLI credential: az not found").mpr
      (by decide)⟩

end CredHelper
